import Mathlib

/-!
# Verification of the ParseIQ resume-ranking core (`src/app.py`)

Shallow embedding of the pure core of `app.py`:

* `get_resume_feedback` (lines 61–86): lowercase whitespace tokenization into
  sets, match percentage, missing-keyword list capped at 20 for display, and
  the fixed feedback text.
* `rank_resumes` (lines 51–58): one similarity score per candidate, then
  `sorted(..., key=lambda x: x[1], reverse=True)` — a stable descending sort,
  embedded as `List.mergeSort` with the reversed comparison.  The sentence
  transformer `model.encode` and `util.cos_sim` are external library calls,
  so the ranker is parametric in an encoder `String → V` and a similarity
  `V → V → α` over a linear order of scores.
* `save_results_to_gsheet` (lines 41–48): appends one row per ranking entry
  to an external sheet; the sheet is modelled as a list of rows and
  `append_row` as list append (the spec describes the sink as append-only).
* cosine similarity over real vectors, modelled from the spec's formula
  (`dot(a,b) / (|a| * |b|)`, defined as 0 on zero-magnitude vectors).

Python `dict` iteration order is insertion order, so a candidates mapping is
embedded as an association list `List (String × String)`; a Python `set` is
embedded as a duplicate-free list (membership is what the claims use; the
concrete enumeration order of a CPython `set` is not modelled).
-/

namespace ParseIQ

/-! ## Definitions -/

/-- Python `str.split()` on a character list: split on runs of whitespace,
producing no empty tokens.  `acc` holds the characters of the token being
read, in reverse. -/
def pySplitAux : List Char → List Char → List String
  | [], acc => if acc.isEmpty then [] else [String.mk acc.reverse]
  | c :: cs, acc =>
    if c.isWhitespace then
      (if acc.isEmpty then [] else [String.mk acc.reverse]) ++ pySplitAux cs []
    else
      pySplitAux cs (c :: acc)

/-- Models Python `s.lower().split()` (lines 62–63 of `app.py`): lowercase
the text, then split on whitespace into non-empty tokens. -/
def pyTokens (s : String) : List String :=
  pySplitAux (s.data.map Char.toLower) []

/-- Inserting one element into a Python `set` under construction: a no-op
when the element is already present. -/
def insertTok (l : List String) (x : String) : List String :=
  if x ∈ l then l else l ++ [x]

/-- Models Python `set(s.lower().split())`: the distinct tokens of `s`, as a
duplicate-free list (first occurrence kept). -/
def tokenSet (s : String) : List String :=
  (pyTokens s).foldl insertTok []

/-- Line 65 of `app.py`: `missing = jd_keywords - resume_words`, the
reference tokens absent from the candidate's token set. -/
def missingKeywords (resume_text job_description : String) : List String :=
  (tokenSet job_description).filter (fun w => !decide (w ∈ tokenSet resume_text))

/-- Line 66 of `app.py`: `match_count = len(jd_keywords & resume_words)`. -/
def match_count (resume_text job_description : String) : ℕ :=
  ((tokenSet job_description).filter (fun w => decide (w ∈ tokenSet resume_text))).length

/-- Line 67 of `app.py`: `total = len(jd_keywords)`. -/
def total (job_description : String) : ℕ :=
  (tokenSet job_description).length

/-- Line 69 of `app.py`:
`match_percent = (match_count / total) * 100 if total > 0 else 0`, over
exact rationals. -/
def match_percent (resume_text job_description : String) : ℚ :=
  if 0 < total job_description then
    ((match_count resume_text job_description : ℚ) / (total job_description : ℚ)) * 100
  else 0

/-- Python `round` to the nearest integer, ties to even (used by
`round(match_percent, 1)` on line 72 and `round(row[1], 4)` on line 46). -/
def pyRound (q : ℚ) : ℤ :=
  let f := ⌊q⌋
  if q - f < 1 / 2 then f
  else if (1 : ℚ) / 2 < q - f then f + 1
  else if f % 2 = 0 then f else f + 1

/-- Models `str(round(match_percent, 1))` (line 72): decimal rendering of the
value rounded to one decimal place. -/
def reprRound1 (q : ℚ) : String :=
  toString (pyRound (q * 10) / 10) ++ "." ++ toString ((pyRound (q * 10)).natAbs % 10)

/-- Line 75 of `app.py`: `list(missing)[:20]`, the at-most-20 missing
keywords shown. -/
def displayedMissing (resume_text job_description : String) : List String :=
  (missingKeywords resume_text job_description).take 20

/-- The all-present message of line 77. -/
def allPresentMsg : String := "🎯 All job description keywords are present in the resume!"

/-- The `lines` list built on lines 71–84 of `app.py`. -/
def feedbackLines (resume_text job_description : String) : List String :=
  ["✅ Resume matches about " ++ reprRound1 (match_percent resume_text job_description)
      ++ "% of the job description keywords."]
  ++ (if missingKeywords resume_text job_description ≠ [] then
        ["🔍 Missing keywords (skills or terms): "
            ++ String.intercalate ", " (displayedMissing resume_text job_description) ++ "."]
      else [allPresentMsg])
  ++ ["", "Suggestions:",
      "- Add relevant keywords from the job description.",
      "- Clearly highlight matching skills, tools, and achievements.",
      "- Use consistent formatting and standard section headers (e.g., Experience, Projects).",
      "- Keep it concise, clean, and professional."]

/-- Lines 61–86 of `app.py`, `get_resume_feedback`: `"\n".join(lines)`. -/
def get_resume_feedback (resume_text job_description : String) : String :=
  String.intercalate "\n" (feedbackLines resume_text job_description)

/-- Lines 51–58 of `app.py`, `rank_resumes`: score every candidate against
the reference text, then sort by score descending (stably).  `model.encode`
and `util.cos_sim` are calls into the external sentence-transformers
library, so the ranker is parametric in an encoder and a similarity function
over a linearly ordered score type; Python's
`sorted(rankings, key=lambda x: x[1], reverse=True)` is a stable sort by
score descending, embedded as `List.mergeSort` with comparison
`fun x y => y.2 ≤ x.2`. -/
def rank_resumes {V α : Type*} [LinearOrder α] (encode : String → V)
    (cos_sim : V → V → α) (job_description : String)
    (resume_texts : List (String × String)) : List (String × α) :=
  (resume_texts.map
      (fun p => (p.1, cos_sim (encode job_description) (encode p.2)))).mergeSort
    (fun x y => decide (y.2 ≤ x.2))

/-- Dot product of two real vectors. -/
def dot : List ℝ → List ℝ → ℝ
  | x :: xs, y :: ys => x * y + dot xs ys
  | _, _ => 0

/-- Euclidean magnitude `|v|` of a vector. -/
noncomputable def vnorm (v : List ℝ) : ℝ := Real.sqrt (dot v v)

/-- Modelled from the spec: cosine similarity `dot(a,b) / (|a| * |b|)` of the
external embedding library (`util.cos_sim`, line 56, is not part of the
repository), defined as `0` when either vector has zero magnitude. -/
noncomputable def cos_sim (a b : List ℝ) : ℝ :=
  if vnorm a = 0 ∨ vnorm b = 0 then 0 else dot a b / (vnorm a * vnorm b)

/-- A timestamp as read from the system clock by `datetime.now()`. -/
structure DateTime where
  year : ℕ
  month : ℕ
  day : ℕ
  hour : ℕ
  minute : ℕ
  second : ℕ

/-- Two-digit zero padding of a `strftime` field. -/
def pad2 (n : ℕ) : String := if n < 10 then "0" ++ toString n else toString n

/-- Four-digit zero padding of the `strftime` year field. -/
def pad4 (n : ℕ) : String :=
  if n < 10 then "000" ++ toString n
  else if n < 100 then "00" ++ toString n
  else if n < 1000 then "0" ++ toString n
  else toString n

/-- Line 47 of `app.py`: `datetime.now().strftime("%Y-%m-%d %H:%M:%S")`. -/
def strftime (t : DateTime) : String :=
  pad4 t.year ++ "-" ++ pad2 t.month ++ "-" ++ pad2 t.day ++ " "
    ++ pad2 t.hour ++ ":" ++ pad2 t.minute ++ ":" ++ pad2 t.second

/-- Line 46 of `app.py`: `round(row[1], 4)`, over exact rationals. -/
def round4 (q : ℚ) : ℚ := (pyRound (q * 10000) : ℚ) / 10000

/-- One spreadsheet row: resume name, rounded similarity score, timestamp
(lines 44–48). -/
structure SheetRow where
  name : String
  score : ℚ
  timestamp : String

/-- Modelled from the spec: `sheet.append_row(...)` of the external gspread
client appends a single row at the end of the sheet — the spec describes the
logging sink as an append-only row store with no update or delete. -/
def append_row (sheet : List SheetRow) (r : SheetRow) : List SheetRow :=
  sheet ++ [r]

/-- Lines 41–48 of `app.py`, `save_results_to_gsheet`: for each ranking
entry, append (name, score rounded to 4 decimal places, current timestamp).
`clock k` models the value of `datetime.now()` at the `k`-th call. -/
def save_results_to_gsheet (clock : ℕ → DateTime) :
    List (String × ℚ) → ℕ → List SheetRow → List SheetRow
  | [], _, sheet => sheet
  | row :: rest, k, sheet =>
      save_results_to_gsheet clock rest (k + 1)
        (append_row sheet (SheetRow.mk row.1 (round4 row.2) (strftime (clock k))))

/-! ## Token-set lemmas -/

theorem mem_insertTok {l : List String} {x y : String} :
    y ∈ insertTok l x ↔ y ∈ l ∨ y = x := by
  unfold insertTok
  by_cases h : x ∈ l
  · simp only [if_pos h]
    constructor
    · exact Or.inl
    · rintro (hy | rfl) <;> [exact hy; exact h]
  · simp [if_neg h]

theorem nodup_insertTok {l : List String} {x : String} (h : l.Nodup) :
    (insertTok l x).Nodup := by
  unfold insertTok
  by_cases hx : x ∈ l
  · simpa [if_pos hx]
  · simpa [if_neg hx, List.nodup_append, h] using hx

theorem mem_foldl_insertTok (ts : List String) (l : List String) (y : String) :
    y ∈ ts.foldl insertTok l ↔ y ∈ l ∨ y ∈ ts := by
  induction ts generalizing l with
  | nil => simp
  | cons t ts ih =>
    simp only [List.foldl_cons, ih, mem_insertTok, List.mem_cons]
    tauto

theorem nodup_foldl_insertTok (ts : List String) (l : List String)
    (h : l.Nodup) : (ts.foldl insertTok l).Nodup := by
  induction ts generalizing l with
  | nil => exact h
  | cons t ts ih => exact ih _ (nodup_insertTok h)

theorem mem_tokenSet {s : String} {y : String} :
    y ∈ tokenSet s ↔ y ∈ pyTokens s := by
  unfold tokenSet
  rw [mem_foldl_insertTok]
  simp

theorem tokenSet_nodup (s : String) : (tokenSet s).Nodup :=
  nodup_foldl_insertTok _ _ List.nodup_nil

/-! ## Feedback theorems -/

theorem match_count_le_total (r j : String) : match_count r j ≤ total j :=
  List.length_filter_le _ _

/-- C3: `match_percent` is `100 * matched / total` when the reference token
set is non-empty and `0` when it is empty, and it always lies in `[0, 100]`
(the `total > 0` guard on line 69 of `app.py` prevents division by zero). -/
theorem match_percent_in_range_and_formula (r j : String) :
    0 ≤ match_percent r j ∧ match_percent r j ≤ 100 ∧
    match_percent r j =
      (if tokenSet j = [] then 0
       else 100 * (match_count r j : ℚ) / (total j : ℚ)) := by
  by_cases h : tokenSet j = []
  · have ht : total j = 0 := by simp [total, h]
    simp [match_percent, ht, h]
  · have ht : 0 < total j := by
      simpa [total, List.length_pos] using h
    have htQ : (0 : ℚ) < (total j : ℚ) := by exact_mod_cast ht
    have hm : (match_count r j : ℚ) ≤ (total j : ℚ) := by
      exact_mod_cast match_count_le_total r j
    have hm0 : (0 : ℚ) ≤ (match_count r j : ℚ) := by positivity
    refine ⟨?_, ?_, ?_⟩
    · rw [match_percent, if_pos ht]
      positivity
    · rw [match_percent, if_pos ht]
      have hdiv : (match_count r j : ℚ) / (total j : ℚ) ≤ 1 :=
        (div_le_one htQ).mpr hm
      calc (match_count r j : ℚ) / (total j : ℚ) * 100
          ≤ 1 * 100 := by
            exact mul_le_mul_of_nonneg_right hdiv (by norm_num)
        _ = 100 := by norm_num
    · rw [match_percent, if_pos ht, if_neg h]
      ring

/-- C4: the list of missing keywords shown in the feedback output
(`list(missing)[:20]` on line 75 of `app.py`) never has more than 20
entries. -/
theorem displayedMissing_length_le (r j : String) :
    (displayedMissing r j).length ≤ 20 := by
  simp only [displayedMissing, List.length_take]
  exact Nat.min_le_left _ _

/-- C5 fails on token-free text: at `text = ""` the reference token set is
empty, so line 69 of `app.py` yields `match_percent = 0`, not `100`. -/
theorem match_percent_self_empty_ne_100 :
    ¬ (match_percent "" "" = 100 ∧ missingKeywords "" "" = []) := by
  intro h
  have := h.1
  revert this
  decide

/-- C5 (amended): `feedback(text, text)` always yields an empty
missing-keyword list; its `match_percent` is `100` whenever the text has at
least one whitespace token, and `0` when it has none. -/
theorem feedback_self_tokens (text : String) :
    missingKeywords text text = [] ∧
    (tokenSet text ≠ [] → match_percent text text = 100) ∧
    (tokenSet text = [] → match_percent text text = 0) := by
  refine ⟨?_, ?_, ?_⟩
  · simp [missingKeywords, List.filter_eq_nil_iff]
  · intro h
    have hc : match_count text text = total text := by
      simp only [match_count, total]
      congr 1
      rw [List.filter_eq_self]
      intro a ha
      simpa using ha
    have ht : 0 < total text := by
      simpa [total, List.length_pos] using h
    have htQ : (total text : ℚ) ≠ 0 := by
      exact_mod_cast Nat.pos_iff_ne_zero.mp ht
    rw [match_percent, if_pos ht, hc, div_self htQ, one_mul]
  · intro h
    have ht : total text = 0 := by simp [total, h]
    simp [match_percent, ht]

/-- C5 witness: on `"hello world"` the amended statement gives a 100 percent
match of the text against itself and no missing keywords. -/
theorem feedback_self_tokens_witness :
    missingKeywords "hello world" "hello world" = [] ∧
    match_percent "hello world" "hello world" = 100 :=
  ⟨(feedback_self_tokens "hello world").1,
   (feedback_self_tokens "hello world").2.1 (by decide)⟩

theorem head_data_append (p s : String) (h : p.data ≠ []) :
    (p ++ s).data.head? = p.data.head? := by
  rw [String.data_append, List.head?_append]
  cases hp : p.data with
  | nil => exact absurd hp h
  | cons c l => simp

theorem ne_append_append (t p x s : String) (h1 : p.data ≠ [])
    (h2 : t.data.head? ≠ p.data.head?) : t ≠ p ++ x ++ s := by
  intro he
  apply h2
  rw [he]
  rw [head_data_append (p ++ x) s
      (by rw [String.data_append]; exact List.append_ne_nil_of_left_ne_nil h1 _)]
  exact head_data_append p x h1

/-- C10: the all-present message of line 77 is emitted exactly when the
missing set of line 65 is empty, i.e. when every reference token occurs in
the candidate's token set — vacuously so for a token-free reference text,
where the reported match percentage is nevertheless `0`. -/
theorem allPresentMsg_mem_iff (r j : String) :
    (allPresentMsg ∈ feedbackLines r j ↔ ∀ w ∈ tokenSet j, w ∈ tokenSet r)
    ∧ (tokenSet j = [] →
        allPresentMsg ∈ feedbackLines r j ∧ match_percent r j = 0) := by
  have hmiss : missingKeywords r j = [] ↔ ∀ w ∈ tokenSet j, w ∈ tokenSet r := by
    simp [missingKeywords, List.filter_eq_nil_iff]
  constructor
  · rw [← hmiss]
    constructor
    · intro hmem
      by_contra hne
      rw [feedbackLines, if_pos hne] at hmem
      simp only [List.cons_append, List.nil_append, List.mem_cons,
        List.not_mem_nil, or_false] at hmem
      rcases hmem with h | h | h
      · exact ne_append_append _ "✅ Resume matches about "
          (reprRound1 (match_percent r j)) "% of the job description keywords."
          (by decide) (by decide) h
      · exact ne_append_append _ "🔍 Missing keywords (skills or terms): "
          (String.intercalate ", " (displayedMissing r j)) "."
          (by decide) (by decide) h
      · revert h
        decide
    · intro hnil
      rw [feedbackLines, if_neg (by simpa using hnil)]
      simp [allPresentMsg]
  · intro hj
    have hnil : missingKeywords r j = [] := by
      simp [missingKeywords, hj]
    have ht : total j = 0 := by simp [total, hj]
    refine ⟨?_, ?_⟩
    · rw [feedbackLines, if_neg (by simpa using hnil)]
      simp [allPresentMsg]
    · simp [match_percent, ht]

/-- C10 witness: with an empty reference text the all-present message is
shown while the match percentage is `0`. -/
theorem allPresentMsg_mem_witness :
    allPresentMsg ∈ feedbackLines "some resume text" "" ∧
    match_percent "some resume text" "" = 0 :=
  (allPresentMsg_mem_iff "some resume text" "").2 (by decide)

/-! ## Ranking theorems -/

theorem descComp_trans {α : Type*} [LinearOrder α] :
    ∀ a b c : String × α, (decide (b.2 ≤ a.2)) → (decide (c.2 ≤ b.2)) →
      (decide (c.2 ≤ a.2)) := by
  intro a b c hab hbc
  simp only [decide_eq_true_eq] at *
  exact le_trans hbc hab

theorem descComp_total {α : Type*} [LinearOrder α] :
    ∀ a b : String × α, (decide (b.2 ≤ a.2)) || (decide (a.2 ≤ b.2)) := by
  intro a b
  simpa using le_total b.2 a.2

/-- C1: the ranking is a permutation of the input candidate set — same
length, the same names, each input name exactly once, none dropped. -/
theorem rank_resumes_is_permutation {V α : Type*} [LinearOrder α]
    (encode : String → V) (cos_sim : V → V → α) (jd : String)
    (resume_texts : List (String × String))
    (h : (resume_texts.map Prod.fst).Nodup) :
    ((rank_resumes encode cos_sim jd resume_texts).map Prod.fst).Perm
        (resume_texts.map Prod.fst)
    ∧ (rank_resumes encode cos_sim jd resume_texts).length = resume_texts.length
    ∧ ((rank_resumes encode cos_sim jd resume_texts).map Prod.fst).Nodup
    ∧ ∀ n ∈ resume_texts.map Prod.fst,
        ((rank_resumes encode cos_sim jd resume_texts).map Prod.fst).count n = 1 := by
  have hperm :
      (rank_resumes encode cos_sim jd resume_texts).Perm
        (resume_texts.map
          (fun p => (p.1, cos_sim (encode jd) (encode p.2)))) :=
    List.mergeSort_perm _ _
  have hfst :
      (resume_texts.map
          (fun p => (p.1, cos_sim (encode jd) (encode p.2)))).map Prod.fst
        = resume_texts.map Prod.fst := by
    simp [List.map_map]
  have hmapped :
      ((rank_resumes encode cos_sim jd resume_texts).map Prod.fst).Perm
        (resume_texts.map Prod.fst) := by
    rw [← hfst]
    exact hperm.map Prod.fst
  refine ⟨hmapped, ?_, ?_, ?_⟩
  · simpa using hperm.length_eq
  · exact hmapped.nodup_iff.mpr h
  · intro n hn
    exact List.count_eq_one_of_mem (hmapped.nodup_iff.mpr h)
      (hmapped.mem_iff.mpr hn)

/-- C1 witness at a concrete two-candidate batch. -/
theorem rank_resumes_is_permutation_witness :
    ((rank_resumes (fun s => (s.length : ℚ)) (fun a b => a * b) "jd"
        [("alice", "aa"), ("bob", "b")]).map Prod.fst).Perm
        ([("alice", "aa"), ("bob", "b")].map Prod.fst)
    ∧ (rank_resumes (fun s => (s.length : ℚ)) (fun a b => a * b) "jd"
        [("alice", "aa"), ("bob", "b")]).length
        = [("alice", "aa"), ("bob", "b")].length
    ∧ ((rank_resumes (fun s => (s.length : ℚ)) (fun a b => a * b) "jd"
        [("alice", "aa"), ("bob", "b")]).map Prod.fst).Nodup
    ∧ ∀ n ∈ [("alice", "aa"), ("bob", "b")].map Prod.fst,
        ((rank_resumes (fun s => (s.length : ℚ)) (fun a b => a * b) "jd"
          [("alice", "aa"), ("bob", "b")]).map Prod.fst).count n = 1 :=
  rank_resumes_is_permutation (fun s => (s.length : ℚ)) (fun a b => a * b)
    "jd" [("alice", "aa"), ("bob", "b")] (by decide)

/-- C2: the ranking is sorted by score in non-increasing order: for positions
`i < j`, the score at `i` is at least the score at `j`. -/
theorem rank_resumes_sorted_desc {V α : Type*} [LinearOrder α]
    (encode : String → V) (cos_sim : V → V → α) (jd : String)
    (resume_texts : List (String × String)) (i j : ℕ) (hij : i < j)
    (hi : i < (rank_resumes encode cos_sim jd resume_texts).length)
    (hj : j < (rank_resumes encode cos_sim jd resume_texts).length) :
    ((rank_resumes encode cos_sim jd resume_texts).get ⟨j, hj⟩).2
      ≤ ((rank_resumes encode cos_sim jd resume_texts).get ⟨i, hi⟩).2 := by
  have hs :
      (rank_resumes encode cos_sim jd resume_texts).Pairwise
        (fun x y : String × α => decide (y.2 ≤ x.2)) :=
    List.sorted_mergeSort descComp_trans descComp_total _
  rw [List.pairwise_iff_getElem] at hs
  have := hs i j hi hj hij
  simpa using this

/-- C2 witness: concrete two-candidate batch, positions `0 < 1`. -/
theorem rank_resumes_sorted_desc_witness :
    ((rank_resumes (fun s => (s.length : ℚ)) (fun a b => a * b) "jd"
        [("a", "xx"), ("b", "y")]).get ⟨1, by simp [rank_resumes]⟩).2
      ≤ ((rank_resumes (fun s => (s.length : ℚ)) (fun a b => a * b) "jd"
        [("a", "xx"), ("b", "y")]).get ⟨0, by simp [rank_resumes]⟩).2 :=
  rank_resumes_sorted_desc (fun s => (s.length : ℚ)) (fun a b => a * b) "jd"
    [("a", "xx"), ("b", "y")] 0 1 (by decide) (by simp [rank_resumes])
    (by simp [rank_resumes])

/-- C6: the descending sort is stable — for any score value `c`, the ranking
entries scoring `c` appear exactly in the original insertion order of the
candidates mapping. -/
theorem rank_resumes_stable {V α : Type*} [LinearOrder α]
    (encode : String → V) (cos_sim : V → V → α) (jd : String)
    (resume_texts : List (String × String)) (c : α) :
    (rank_resumes encode cos_sim jd resume_texts).filter
        (fun x => decide (x.2 = c))
      = (resume_texts.map
          (fun p => (p.1, cos_sim (encode jd) (encode p.2)))).filter
          (fun x => decide (x.2 = c)) := by
  set l := resume_texts.map
      (fun p => (p.1, cos_sim (encode jd) (encode p.2))) with hl
  have hfilter_pw :
      (l.filter (fun x => decide (x.2 = c))).Pairwise
        (fun x y : String × α => decide (y.2 ≤ x.2)) := by
    rw [List.pairwise_iff_forall_sublist]
    intro a b hab
    have ha : a ∈ l.filter (fun x => decide (x.2 = c)) :=
      hab.subset (List.mem_cons_self a [b])
    have hb : b ∈ l.filter (fun x => decide (x.2 = c)) :=
      hab.subset (List.mem_cons_of_mem a (List.mem_cons_self b []))
    have ha2 : a.2 = c := by simpa using List.of_mem_filter ha
    have hb2 : b.2 = c := by simpa using List.of_mem_filter hb
    simp [ha2, hb2]
  have hsub :
      List.Sublist (l.filter (fun x => decide (x.2 = c)))
        (l.mergeSort (fun x y => decide (y.2 ≤ x.2))) :=
    List.sublist_mergeSort descComp_trans descComp_total hfilter_pw
      (List.filter_sublist l)
  have hsub2 :
      List.Sublist (l.filter (fun x => decide (x.2 = c)))
        ((l.mergeSort (fun x y => decide (y.2 ≤ x.2))).filter
          (fun x => decide (x.2 = c))) := by
    have := hsub.filter (fun x => decide (x.2 = c))
    rwa [List.filter_filter, show
        (fun x : String × α => decide (x.2 = c) && decide (x.2 = c))
          = fun x => decide (x.2 = c) by funext x; cases decide (x.2 = c) <;> simp]
      at this
  have hlen :
      ((l.mergeSort (fun x y => decide (y.2 ≤ x.2))).filter
          (fun x => decide (x.2 = c))).length
        = (l.filter (fun x => decide (x.2 = c))).length :=
    ((List.mergeSort_perm l _).filter _).length_eq
  have hrank : rank_resumes encode cos_sim jd resume_texts
      = l.mergeSort (fun x y => decide (y.2 ≤ x.2)) := by
    simp only [rank_resumes, hl]
  rw [hrank]
  exact (hsub2.eq_of_length hlen.symm).symm

/-- C6 witness: two tied candidates keep their insertion order. -/
theorem rank_resumes_stable_witness :
    (rank_resumes (fun _ => (1 : ℚ)) (fun a b => a * b) "jd"
        [("first", "x"), ("second", "y")]).filter
        (fun x => decide (x.2 = (1 : ℚ)))
      = ([("first", "x"), ("second", "y")].map
          (fun p => (p.1, (fun a b => a * b) ((fun _ => (1 : ℚ)) "jd")
            ((fun _ => (1 : ℚ)) p.2)))).filter
          (fun x => decide (x.2 = (1 : ℚ))) :=
  rank_resumes_stable (fun _ => (1 : ℚ)) (fun a b => a * b) "jd"
    [("first", "x"), ("second", "y")] 1

/-! ## Cosine-similarity theorems -/

theorem dot_self_nonneg (a : List ℝ) : 0 ≤ dot a a := by
  induction a with
  | nil => simp [dot]
  | cons x xs ih => simpa [dot] using add_nonneg (mul_self_nonneg x) ih

theorem cauchy_schwarz_step (x y d A B : ℝ) (hA : 0 ≤ A) (hB : 0 ≤ B)
    (hd : d ^ 2 ≤ A * B) : (x * y + d) ^ 2 ≤ (x * x + A) * (y * y + B) := by
  have h1 : (2 * x * y * d) ^ 2 ≤ (x ^ 2 * B + y ^ 2 * A) ^ 2 := by
    nlinarith [sq_nonneg (x ^ 2 * B - y ^ 2 * A),
      mul_nonneg (mul_nonneg (sq_nonneg x) (sq_nonneg y)) (sub_nonneg.mpr hd)]
  have h2 : (0 : ℝ) ≤ x ^ 2 * B + y ^ 2 * A := by positivity
  have h3 : 2 * x * y * d ≤ x ^ 2 * B + y ^ 2 * A :=
    le_of_sq_le_sq h1 h2
  nlinarith [h3, hd]

theorem dot_sq_le (a b : List ℝ) : (dot a b) ^ 2 ≤ dot a a * dot b b := by
  induction a generalizing b with
  | nil => simp [dot]
  | cons x xs ih =>
    cases b with
    | nil => simp [dot, mul_nonneg (dot_self_nonneg (x :: xs))]
    | cons y ys =>
      have hstep := cauchy_schwarz_step x y (dot xs ys) (dot xs xs)
        (dot ys ys) (dot_self_nonneg xs) (dot_self_nonneg ys) (ih ys)
      simpa [dot] using hstep

/-- C7: the similarity score lies in `[-1, 1]`, with the zero-magnitude case
defined as `0` (no division by zero). -/
theorem cos_sim_bounds (a b : List ℝ) :
    -1 ≤ cos_sim a b ∧ cos_sim a b ≤ 1 := by
  unfold cos_sim
  by_cases h : vnorm a = 0 ∨ vnorm b = 0
  · rw [if_pos h]
    norm_num
  · rw [if_neg h]
    push_neg at h
    have hna : 0 < vnorm a :=
      lt_of_le_of_ne (Real.sqrt_nonneg _) (Ne.symm h.1)
    have hnb : 0 < vnorm b :=
      lt_of_le_of_ne (Real.sqrt_nonneg _) (Ne.symm h.2)
    have hp : 0 < vnorm a * vnorm b := mul_pos hna hnb
    have hsq : (dot a b) ^ 2 ≤ (vnorm a * vnorm b) ^ 2 := by
      have : (vnorm a * vnorm b) ^ 2 = dot a a * dot b b := by
        rw [mul_pow]
        unfold vnorm
        rw [Real.sq_sqrt (dot_self_nonneg a), Real.sq_sqrt (dot_self_nonneg b)]
      rw [this]
      exact dot_sq_le a b
    have habs := abs_le_of_sq_le_sq' hsq (le_of_lt hp)
    constructor
    · rw [le_div_iff₀ hp]
      linarith [habs.1]
    · rw [div_le_one hp]
      exact habs.2

/-! ## Logger theorem -/

/-- C9: the logger leaves the existing sheet untouched and appends exactly
one row per ranking entry, in sequence order — each row carrying the entry's
name, its score rounded to 4 decimal places, and a `YYYY-MM-DD HH:MM:SS`
timestamp from the clock. -/
theorem save_results_append_only (clock : ℕ → DateTime)
    (data : List (String × ℚ)) (k : ℕ) (sheet : List SheetRow) :
    save_results_to_gsheet clock data k sheet
      = sheet ++ (data.enumFrom k).map
          (fun p => SheetRow.mk p.2.1 (round4 p.2.2) (strftime (clock p.1))) := by
  induction data generalizing k sheet with
  | nil => simp [save_results_to_gsheet]
  | cons row rest ih =>
    rw [save_results_to_gsheet, ih, List.enumFrom_cons]
    simp [append_row]

end ParseIQ
